import Mathlib

/-!
Verification of `bills.go`, a CSV bill reporter.

The Go program is embedded shallowly:

* `time.Time` values produced by `time.ParseInLocation("2006-01-02", ..)`
  are calendar dates at midnight; they are embedded as a `Time` record of
  year/month/day, with `Time.toDays` the standard civil-from-days day
  number (days since 1970-01-01) and `Time.Before` comparing day numbers.
  All instants occurring in the program are whole days; the sub-day offset
  between a location's midnight and UTC truncation is not modelled.
* `float64` amounts are embedded as exact rationals `ℚ` (the spec allows
  an epsilon for floating point; the aggregation structure is identical).
* Go maps are embedded as association lists with in-place update
  (`updateMap` / `lookupMap`); Go map equality is extensional, so map
  results are compared through `lookupMap`.
* `sort.Sort` is embedded by its documented contract: it produces some
  permutation of its input that is sorted for the comparator, and it is
  not guaranteed to be stable.  Go map iteration order is unspecified.
  `IsReportOutput` is therefore the set of possible line sequences that
  `reportCosts` can emit.
* `strconv.ParseFloat` is embedded for base-10 inputs (sign, digits,
  decimal point, exponent); hexadecimal floats, Inf/NaN spellings,
  underscores and the float64 range check are outside the model.
* `%.2f` formatting is embedded as rounding to cents, ties to even.
-/

/-- A parsed `YYYY-MM-DD` date (the `time.Time` carried by a `Cost`). -/
structure Time where
  year : Int
  month : Int
  day : Int
deriving DecidableEq

/-- Day number of a civil date, days since 1970-01-01 (Hinnant's
civil-from-days algorithm); the instant `time.ParseInLocation` returns,
measured in days. -/
def Time.toDays (t : Time) : Int :=
  let y := if t.month ≤ 2 then t.year - 1 else t.year
  let era := y.ediv 400
  let yoe := y - era * 400
  let mp := if t.month ≤ 2 then t.month + 9 else t.month - 3
  let doy := (153 * mp + 2).ediv 5 + t.day - 1
  let doe := yoe * 365 + yoe.ediv 4 - yoe.ediv 100 + doy
  era * 146097 + doe - 719468

/-- `time.Time.Before`: strict comparison of instants. -/
def Time.Before (t u : Time) : Prop := t.toDays < u.toDays

instance (t u : Time) : Decidable (t.Before u) := Int.decLt _ _

/-- Cost is a parsed CSV line. -/
structure Cost where
  Time : Time
  Source : String
  Amount : ℚ
  Note : String
deriving DecidableEq

structure GroupedCost where
  Name : String
  Amount : ℚ
deriving DecidableEq

/-- Leap-year rule used by Go's `time` package. -/
def isLeap (y : Int) : Bool := y % 4 == 0 && (y % 100 != 0 || y % 400 == 0)

/-- Number of days in a month, as validated by Go's date parser. -/
def daysIn (year month : Int) : Int :=
  if month = 2 then (if isLeap year then 29 else 28)
  else if month = 4 ∨ month = 6 ∨ month = 9 ∨ month = 11 then 30
  else 31

def digitsToNat (ds : List Char) : Nat :=
  ds.foldl (fun acc c => acc * 10 + (c.toNat - 48)) 0

/-- `time.ParseInLocation("2006-01-02", s, loc)`: exactly four year digits,
a dash, two month digits, a dash, two day digits; month and day must be in
range for the calendar.  Returns the date, or `none` on a parse error. -/
def parseDate (s : String) : Option Time :=
  match s.data with
  | [y1, y2, y3, y4, h1, m1, m2, h2, d1, d2] =>
    if h1 = '-' ∧ h2 = '-' ∧ y1.isDigit ∧ y2.isDigit ∧ y3.isDigit ∧ y4.isDigit
        ∧ m1.isDigit ∧ m2.isDigit ∧ d1.isDigit ∧ d2.isDigit then
      let year : Int := digitsToNat [y1, y2, y3, y4]
      let month : Int := digitsToNat [m1, m2]
      let day : Int := digitsToNat [d1, d2]
      if 1 ≤ month ∧ month ≤ 12 ∧ 1 ≤ day ∧ day ≤ daysIn year month then
        some ⟨year, month, day⟩
      else none
    else none
  | _ => none

/-- `strconv.ParseFloat(s, 64)` on base-10 input, with the exact rational
value: optional sign, digits with an optional decimal point (at least one
digit), optional `e`/`E` exponent.  Returns `none` on a syntax error. -/
def parseFloat (s : String) : Option ℚ :=
  let cs := s.data
  let signAndRest : ℚ × List Char :=
    match cs with
    | '+' :: r => (1, r)
    | '-' :: r => (-1, r)
    | _ => (1, cs)
  let sgn := signAndRest.1
  let intAndRest := signAndRest.2.span Char.isDigit
  let fracAndRest : List Char × List Char :=
    match intAndRest.2 with
    | '.' :: r => r.span Char.isDigit
    | _ => ([], intAndRest.2)
  if intAndRest.1.length + fracAndRest.1.length = 0 then none
  else
    let mant : ℚ := (digitsToNat (intAndRest.1 ++ fracAndRest.1) : ℚ) / (10 ^ fracAndRest.1.length : ℚ)
    match fracAndRest.2 with
    | [] => some (sgn * mant)
    | e :: r =>
      if e = 'e' ∨ e = 'E' then
        let expSignAndRest : Bool × List Char :=
          match r with
          | '+' :: rr => (true, rr)
          | '-' :: rr => (false, rr)
          | _ => (true, r)
        let eds := expSignAndRest.2.span Char.isDigit
        if eds.1.length = 0 ∨ eds.2.length ≠ 0 then none
        else
          some (sgn * mant *
            (if expSignAndRest.1 then ((10 : ℚ) ^ digitsToNat eds.1)
             else ((10 : ℚ) ^ digitsToNat eds.1)⁻¹))
      else none

/-- readCostsCSV reads in a CSV and parses each line as a Cost.
`filterDays` is the day number of the cutoff instant
(`time.Now().Truncate(24h).Add(-daysBack*24h)`, i.e. today − daysBack). -/
def readCostsCSV (filterDays : Int) : List String → Except String (List Cost)
  | [] => Except.ok []
  | line :: rest =>
    match line.splitOn "," with
    | [date, source, amount, note] =>
      match parseDate date with
      | none => Except.error ("Unable to parse date: " ++ date)
      | some costTime =>
        if costTime.toDays < filterDays then readCostsCSV filterDays rest
        else
          match parseFloat amount with
          | none => Except.error ("Unable to parse amount: " ++ amount)
          | some amountFloat =>
            (readCostsCSV filterDays rest).map
              (fun costs => (⟨costTime, source, amountFloat, note⟩ : Cost) :: costs)
    | _ => Except.error ("Line missing expected number of fields: " ++ line)

/-- getTotal totals up the costs. -/
def getTotal (costs : List Cost) : ℚ :=
  costs.foldl (fun total cost => total + cost.Amount) 0

/-- Lookup in the embedded Go map (first entry with the key). -/
def lookupMap : List (String × GroupedCost) → String → Option GroupedCost
  | [], _ => none
  | (k, v) :: rest, s => if s = k then some v else lookupMap rest s

/-- In-place insert-or-replace, the embedding of a Go map assignment. -/
def updateMap : List (String × GroupedCost) → String → GroupedCost → List (String × GroupedCost)
  | [], k, v => [(k, v)]
  | (k0, v0) :: rest, k, v =>
    if k0 = k then (k, v) :: rest else (k0, v0) :: updateMap rest k v

/-- Amount read through Go map indexing (zero value when absent). -/
def amtOf : Option GroupedCost → ℚ
  | none => 0
  | some g => g.Amount

/-- Body of the loop of `tallyCosts`: insert `{Name: source}` when the key
is absent, then add the cost's amount to the entry. -/
def tallyStep (m : List (String × GroupedCost)) (cost : Cost) : List (String × GroupedCost) :=
  let m1 := match lookupMap m cost.Source with
    | none => updateMap m cost.Source ⟨cost.Source, 0⟩
    | some _ => m
  updateMap m1 cost.Source ⟨cost.Source, amtOf (lookupMap m1 cost.Source) + cost.Amount⟩

/-- tallyCosts builds some totals from the costs. -/
def tallyCosts (costs : List Cost) : List (String × GroupedCost) :=
  costs.foldl tallyStep []

/-- Sum of the `Amount` fields over all entries of a map. -/
def sumAmounts (m : List (String × GroupedCost)) : ℚ :=
  (m.map (fun e => e.2.Amount)).sum

/-- Sum of the amounts of the costs drawn from one source. -/
def sumFilter (costs : List Cost) (s : String) : ℚ :=
  ((costs.filter (fun c => c.Source == s)).map Cost.Amount).sum

def pad2 (n : Nat) : String := if n < 10 then "0" ++ toString n else toString n

def pad4 (n : Nat) : String :=
  if n < 10 then "000" ++ toString n
  else if n < 100 then "00" ++ toString n
  else if n < 1000 then "0" ++ toString n
  else toString n

/-- `Format("2006-01-02")`. -/
def fmtDate (t : Time) : String :=
  pad4 t.year.toNat ++ "-" ++ pad2 t.month.toNat ++ "-" ++ pad2 t.day.toNat

/-- `%.2f`: the exact value rounded to cents, ties to even. -/
def roundCents (q : ℚ) : Int :=
  let x := q * 100
  let f := x.floor
  if 1 / 2 < x - f then f + 1
  else if x - f < 1 / 2 then f
  else if f % 2 = 0 then f else f + 1

/-- `fmt.Sprintf("%.2f", q)`. -/
def fmtAmount (q : ℚ) : String :=
  let n := roundCents q
  let a := n.natAbs
  (if n < 0 then "-" else "") ++ toString (a / 100) ++ "." ++ pad2 (a % 100)

/-- `Cost.String()`: `DATE SOURCE: AMOUNT`. -/
def Cost.string (c : Cost) : String :=
  fmtDate c.Time ++ " " ++ c.Source ++ ": " ++ fmtAmount c.Amount

/-- `GroupedCost.String()`: `NAME: AMOUNT`. -/
def GroupedCost.string (g : GroupedCost) : String :=
  g.Name ++ ": " ++ fmtAmount g.Amount

/-- Sortedness for the comparator of `CostByTime`
(`Less i j = m[i].Time.Before(m[j].Time)`): no later element is Before an
earlier one. -/
def timeSorted (costs : List Cost) : Prop :=
  List.Chain' (fun a b => ¬ Time.Before b.Time a.Time) costs

/-- Sortedness for the comparator of `GroupedCostByAmount`
(`Less i j = c[i].Amount > c[j].Amount`): amounts are non-increasing. -/
def amountSorted (gs : List GroupedCost) : Prop :=
  List.Chain' (fun a b => ¬ a.Amount < b.Amount) gs

/-- The lines printed by `reportCosts` once the per-record list has been
sorted to `sortedCosts` and the grouped map values have been collected and
sorted to `sortedGrouped`. -/
def reportLines (sortedCosts : List Cost) (total : ℚ) (sortedGrouped : List GroupedCost) :
    List String :=
  "Costs:" :: sortedCosts.map Cost.string
    ++ ["", "Total: " ++ fmtAmount total, "", "----", "", "Grouped costs:"]
    ++ sortedGrouped.map GroupedCost.string

/-- Denotation of `reportCosts costs total m`: the set of line sequences it
can print, `sort.Sort` being specified only up to a sorted permutation and
Go map iteration order being unspecified. -/
def IsReportOutput (costs : List Cost) (total : ℚ) (m : List (String × GroupedCost))
    (out : List String) : Prop :=
  ∃ s g, s.Perm costs ∧ timeSorted s ∧ g.Perm (m.map Prod.snd) ∧ amountSorted g ∧
    out = reportLines s total g

/-- Argument validation performed by `main` (lines 69-91): `false` means
main prints a usage/diagnostic message and exits with status 1 before any
CSV is read and before any report is produced.  `validTZ` stands for the
success of `time.LoadLocation` on the system's timezone database. -/
def mainArgsOk (csv locationString : String) (daysBack : Int) (validTZ : String → Bool) : Bool :=
  if csv.length = 0 then false
  else if locationString.length = 0 then false
  else if daysBack ≤ 0 then false
  else validTZ locationString

/-- Replace the note of a cost, keeping everything the report and the
aggregation can observe. -/
def stripNote (c : Cost) : Cost := ⟨c.Time, c.Source, c.Amount, ""⟩

/-- Two records that agree except possibly on their `Note` fields. -/
def NoteVariant (a b : Cost) : Prop :=
  a.Time = b.Time ∧ a.Source = b.Source ∧ a.Amount = b.Amount

example : parseDate "1970-01-02" = some ⟨1970, 1, 2⟩ := by decide
example : (parseDate "1970-01-02").map Time.toDays = some 1 := by decide
example : parseFloat "ten" = none := by decide
example : parseFloat "10.00" = some 10 := by with_unfolding_all rfl
example : parseFloat "-2.5e1" = some (-25) := by with_unfolding_all rfl
example : fmtAmount 10 = "10.00" := by with_unfolding_all rfl
example : fmtDate ⟨2024, 1, 5⟩ = "2024-01-05" := by decide

lemma sumAmounts_nil : sumAmounts [] = 0 := rfl

lemma sumAmounts_cons (e : String × GroupedCost) (m : List (String × GroupedCost)) :
    sumAmounts (e :: m) = e.2.Amount + sumAmounts m := by
  simp [sumAmounts]

lemma lookupMap_update (m : List (String × GroupedCost)) (k : String) (v : GroupedCost)
    (s : String) :
    lookupMap (updateMap m k v) s = if s = k then some v else lookupMap m s := by
  induction m with
  | nil => simp [updateMap, lookupMap]
  | cons e rest ih =>
    obtain ⟨k0, v0⟩ := e
    by_cases h0 : k0 = k
    · subst h0
      simp only [updateMap, if_pos rfl, lookupMap]
      by_cases hs : s = k0
      · simp [hs]
      · simp [hs]
    · simp only [updateMap, if_neg h0, lookupMap]
      by_cases hs : s = k0
      · subst hs
        have : ¬ s = k := fun h => h0 (h ▸ rfl)
        simp [this]
      · simp [hs, ih]

lemma sumAmounts_update (m : List (String × GroupedCost)) (k : String) (v : GroupedCost) :
    sumAmounts (updateMap m k v) = sumAmounts m + v.Amount - amtOf (lookupMap m k) := by
  induction m with
  | nil => simp [updateMap, lookupMap, amtOf, sumAmounts]
  | cons e rest ih =>
    obtain ⟨k0, v0⟩ := e
    by_cases h0 : k0 = k
    · simp only [updateMap, if_pos h0, lookupMap, if_pos h0.symm, sumAmounts_cons, amtOf]
      ring
    · have hk : ¬ k = k0 := fun h => h0 h.symm
      simp only [updateMap, if_neg h0, lookupMap, sumAmounts_cons, if_neg hk]
      rw [ih]
      ring

lemma lookupMap_tallyStep (m : List (String × GroupedCost)) (c : Cost) (s : String) :
    lookupMap (tallyStep m c) s =
      if s = c.Source then some ⟨c.Source, amtOf (lookupMap m c.Source) + c.Amount⟩
      else lookupMap m s := by
  unfold tallyStep
  cases h : lookupMap m c.Source with
  | none =>
    simp only [h, lookupMap_update, amtOf]
    by_cases hs : s = c.Source <;> simp [hs]
  | some g => simp [h, lookupMap_update, amtOf]

lemma sumAmounts_tallyStep (m : List (String × GroupedCost)) (c : Cost) :
    sumAmounts (tallyStep m c) = sumAmounts m + c.Amount := by
  unfold tallyStep
  cases h : lookupMap m c.Source with
  | none =>
    simp only [h]
    rw [sumAmounts_update, sumAmounts_update, lookupMap_update]
    simp [h, amtOf]
  | some g =>
    simp only [h]
    rw [sumAmounts_update]
    simp only [h, amtOf]
    ring

lemma sumAmounts_foldl (l : List Cost) :
    ∀ m, sumAmounts (l.foldl tallyStep m) = sumAmounts m + (l.map Cost.Amount).sum := by
  induction l with
  | nil => intro m; simp
  | cons c l ih =>
    intro m
    rw [List.foldl_cons, ih, sumAmounts_tallyStep, List.map_cons, List.sum_cons]
    ring

lemma getTotal_foldl (l : List Cost) :
    ∀ a : ℚ, l.foldl (fun total cost => total + cost.Amount) a = a + (l.map Cost.Amount).sum := by
  induction l with
  | nil => intro a; simp
  | cons c l ih =>
    intro a
    rw [List.foldl_cons, ih, List.map_cons, List.sum_cons]
    ring

lemma getTotal_eq (costs : List Cost) : getTotal costs = (costs.map Cost.Amount).sum := by
  simpa [getTotal] using getTotal_foldl costs 0

lemma sumFilter_cons (c : Cost) (l : List Cost) (s : String) :
    sumFilter (c :: l) s = (if c.Source = s then c.Amount else 0) + sumFilter l s := by
  by_cases h : c.Source = s
  · simp [sumFilter, List.filter_cons, h]
  · simp [sumFilter, List.filter_cons, h]

lemma sumFilter_of_not_mem {l : List Cost} {s : String} (h : s ∉ l.map Cost.Source) :
    sumFilter l s = 0 := by
  induction l with
  | nil => rfl
  | cons c l ih =>
    rw [sumFilter_cons]
    have h1 : ¬ c.Source = s := fun hc =>
      h (by rw [List.map_cons]; exact List.mem_cons.mpr (Or.inl hc.symm))
    have h2 : s ∉ l.map Cost.Source := fun hm =>
      h (by rw [List.map_cons]; exact List.mem_cons.mpr (Or.inr hm))
    simp [h1, ih h2]

lemma lookupMap_foldl (l : List Cost) :
    ∀ (m : List (String × GroupedCost)) (s : String),
      lookupMap (l.foldl tallyStep m) s =
        if s ∈ l.map Cost.Source then
          some ⟨s, amtOf (lookupMap m s) + sumFilter l s⟩
        else lookupMap m s := by
  induction l with
  | nil => intro m s; simp [sumFilter]
  | cons c l ih =>
    intro m s
    rw [List.foldl_cons, ih]
    simp only [lookupMap_tallyStep]
    by_cases hcs : s = c.Source
    · have hmap : s ∈ (c :: l).map Cost.Source := by
        rw [List.map_cons]; exact List.mem_cons.mpr (Or.inl hcs)
      rw [if_pos hmap, if_pos hcs, sumFilter_cons, if_pos hcs.symm]
      by_cases hmem : s ∈ l.map Cost.Source
      · rw [if_pos hmem]
        simp only [amtOf]
        rw [← hcs, add_assoc]
      · rw [if_neg hmem, sumFilter_of_not_mem hmem, ← hcs, add_zero]
    · have hne : ¬ c.Source = s := fun h => hcs h.symm
      have hmap : (s ∈ (c :: l).map Cost.Source) ↔ (s ∈ l.map Cost.Source) := by
        rw [List.map_cons, List.mem_cons]
        exact or_iff_right hcs
      rw [sumFilter_cons, if_neg hne, zero_add]
      by_cases hmem : s ∈ l.map Cost.Source
      · rw [if_pos hmem, if_pos (hmap.mpr hmem), if_neg hcs]
      · rw [if_neg hmem, if_neg (fun h => hmem (hmap.mp h)), if_neg hcs]

lemma tallyCosts_lookup (costs : List Cost) (s : String) :
    lookupMap (tallyCosts costs) s =
      if s ∈ costs.map Cost.Source then some ⟨s, sumFilter costs s⟩ else none := by
  have := lookupMap_foldl costs [] s
  simpa [tallyCosts, lookupMap, amtOf] using this

lemma readCostsCSV_append (fd : Int) (l1 l2 : List String) :
    readCostsCSV fd (l1 ++ l2) =
      match readCostsCSV fd l1 with
      | Except.error e => Except.error e
      | Except.ok cs => (readCostsCSV fd l2).map (fun cs2 => cs ++ cs2) := by
  induction l1 with
  | nil =>
    simp only [List.nil_append, readCostsCSV]
    cases h2 : readCostsCSV fd l2 with
    | error e => simp [Except.map]
    | ok cs => simp [Except.map]
  | cons line rest ih =>
    rw [List.cons_append]
    simp only [readCostsCSV]
    rcases hsp : line.splitOn "," with _ | ⟨d, _ | ⟨s, _ | ⟨a, _ | ⟨n, _ | ⟨x, xs⟩⟩⟩⟩⟩ <;>
      simp only []
    case cons.cons.cons.cons.nil =>
      cases hpd : parseDate d with
      | none => simp
      | some t =>
        simp only []
        by_cases hlt : t.toDays < fd
        · simp only [if_pos hlt]
          exact ih
        · simp only [if_neg hlt]
          cases hpf : parseFloat a with
          | none => simp
          | some q =>
            simp only []
            rw [ih]
            cases h1 : readCostsCSV fd rest with
            | error e => simp [Except.map]
            | ok cs =>
              cases h2 : readCostsCSV fd l2 with
              | error e => simp [Except.map]
              | ok cs2 => simp [Except.map]

lemma stripNote_eq_of_noteVariant {a b : Cost} (h : NoteVariant a b) :
    stripNote a = stripNote b := by
  obtain ⟨h1, h2, h3⟩ := h
  simp [stripNote, h1, h2, h3]

lemma map_stripNote_eq {l1 l2 : List Cost} (h : List.Forall₂ NoteVariant l1 l2) :
    l1.map stripNote = l2.map stripNote := by
  induction h with
  | nil => rfl
  | cons hab _ ih => simp [stripNote_eq_of_noteVariant hab, ih]

lemma foldl_tallyStep_stripNote (l : List Cost) :
    ∀ m, (l.map stripNote).foldl tallyStep m = l.foldl tallyStep m := by
  induction l with
  | nil => intro m; rfl
  | cons c l ih =>
    intro m
    rw [List.map_cons, List.foldl_cons, List.foldl_cons]
    exact ih (tallyStep m c)

lemma tallyCosts_map_stripNote (l : List Cost) : tallyCosts (l.map stripNote) = tallyCosts l :=
  foldl_tallyStep_stripNote l []

lemma getTotal_map_stripNote (l : List Cost) : getTotal (l.map stripNote) = getTotal l := by
  rw [getTotal_eq, getTotal_eq, List.map_map]
  rfl

lemma exists_perm_of_map_perm {α β : Type} (f : α → β) :
    ∀ (L : List β) (l : List α), L.Perm (l.map f) →
      ∃ s : List α, s.Perm l ∧ s.map f = L := by
  intro L
  induction L with
  | nil =>
    intro l h
    have hnil : l.map f = [] := h.symm.eq_nil
    have hl : l = [] := List.map_eq_nil_iff.mp hnil
    subst hl
    exact ⟨[], List.Perm.refl [], rfl⟩
  | cons b L ih =>
    intro l h
    have hb : b ∈ l.map f := h.mem_iff.mp (List.mem_cons_self b L)
    obtain ⟨a, ha, hfa⟩ := List.mem_map.mp hb
    obtain ⟨u, v, rfl⟩ := List.append_of_mem ha
    have hmap : (u ++ a :: v).map f = u.map f ++ f a :: v.map f := by simp
    have hstep : (b :: L).Perm (u.map f ++ f a :: v.map f) := by rw [← hmap]; exact h
    have hstep2 : (b :: L).Perm (f a :: (u.map f ++ v.map f)) :=
      hstep.trans List.perm_middle
    have hb2 : f a = b := hfa
    rw [← hb2] at hstep2
    have h2 : L.Perm (u.map f ++ v.map f) := hstep2.cons_inv
    rw [← List.map_append] at h2
    obtain ⟨s, hs, hmapeq⟩ := ih (u ++ v) h2
    refine ⟨a :: s, ?_, ?_⟩
    · exact (hs.cons a).trans List.perm_middle.symm
    · simp [hmapeq, hfa]

lemma mem_updateMap {m : List (String × GroupedCost)} {k : String} {v : GroupedCost}
    {e : String × GroupedCost} (h : e ∈ updateMap m k v) : e ∈ m ∨ e = (k, v) := by
  induction m with
  | nil => simpa [updateMap] using h
  | cons e0 rest ih =>
    obtain ⟨k0, v0⟩ := e0
    by_cases h0 : k0 = k
    · rw [updateMap, if_pos h0] at h
      rcases List.mem_cons.mp h with h1 | h1
      · exact Or.inr h1
      · exact Or.inl (List.mem_cons.mpr (Or.inr h1))
    · rw [updateMap, if_neg h0] at h
      rcases List.mem_cons.mp h with h1 | h1
      · exact Or.inl (List.mem_cons.mpr (Or.inl h1))
      · rcases ih h1 with h2 | h2
        · exact Or.inl (List.mem_cons.mpr (Or.inr h2))
        · exact Or.inr h2

lemma mem_keys_updateMap {m : List (String × GroupedCost)} {k : String} {v : GroupedCost}
    {x : String} : x ∈ (updateMap m k v).map Prod.fst ↔ x ∈ m.map Prod.fst ∨ x = k := by
  induction m with
  | nil => simp [updateMap]
  | cons e0 rest ih =>
    obtain ⟨k0, v0⟩ := e0
    by_cases h0 : k0 = k
    · subst h0
      rw [updateMap, if_pos rfl]
      simp only [List.map_cons, List.mem_cons]
      constructor
      · rintro (h1 | h1)
        · exact Or.inr h1
        · exact Or.inl (Or.inr h1)
      · rintro (h1 | h1)
        · rcases h1 with h2 | h2
          · exact Or.inl h2
          · exact Or.inr h2
        · exact Or.inl h1
    · rw [updateMap, if_neg h0]
      simp only [List.map_cons, List.mem_cons, ih]
      tauto

lemma nodupKeys_updateMap {m : List (String × GroupedCost)}
    (h : (m.map Prod.fst).Nodup) (k : String) (v : GroupedCost) :
    ((updateMap m k v).map Prod.fst).Nodup := by
  induction m with
  | nil => simp [updateMap]
  | cons e0 rest ih =>
    obtain ⟨k0, v0⟩ := e0
    rw [List.map_cons, List.nodup_cons] at h
    by_cases h0 : k0 = k
    · subst h0
      rw [updateMap, if_pos rfl, List.map_cons, List.nodup_cons]
      exact h
    · rw [updateMap, if_neg h0, List.map_cons, List.nodup_cons]
      refine ⟨?_, ih h.2⟩
      intro hmem
      rcases mem_keys_updateMap.mp hmem with h1 | h1
      · exact h.1 h1
      · exact h0 h1

lemma lookupMap_of_mem :
    ∀ {m : List (String × GroupedCost)}, ((m.map Prod.fst).Nodup) →
      ∀ {k : String} {v : GroupedCost}, (k, v) ∈ m → lookupMap m k = some v := by
  intro m
  induction m with
  | nil => intro _ k v h; cases h
  | cons e0 rest ih =>
    obtain ⟨k0, v0⟩ := e0
    intro hnd k v h
    rw [List.map_cons, List.nodup_cons] at hnd
    rcases List.mem_cons.mp h with h1 | h1
    · injection h1 with hk hv
      subst hk
      subst hv
      simp [lookupMap]
    · have hk0 : ¬ k = k0 := by
        intro he
        subst he
        exact hnd.1 (List.mem_map.mpr ⟨(k, v), h1, rfl⟩)
      simp only [lookupMap, if_neg hk0]
      exact ih hnd.2 h1

lemma mem_of_lookupMap :
    ∀ {m : List (String × GroupedCost)} {k : String} {v : GroupedCost},
      lookupMap m k = some v → (k, v) ∈ m := by
  intro m
  induction m with
  | nil => intro k v h; simp [lookupMap] at h
  | cons e0 rest ih =>
    obtain ⟨k0, v0⟩ := e0
    intro k v h
    simp only [lookupMap] at h
    by_cases hk : k = k0
    · rw [if_pos hk] at h
      injection h with hv
      subst hk
      subst hv
      exact List.mem_cons_self _ _
    · rw [if_neg hk] at h
      exact List.mem_cons.mpr (Or.inr (ih h))

lemma tallyStep_entry {m : List (String × GroupedCost)} {c : Cost}
    (hm : ∀ e ∈ m, (e : String × GroupedCost).2.Name = e.1) :
    ∀ e ∈ tallyStep m c, (e : String × GroupedCost).2.Name = e.1 := by
  intro e he
  unfold tallyStep at he
  cases hl : lookupMap m c.Source with
  | none =>
    rw [hl] at he
    have he1 : e ∈ updateMap (updateMap m c.Source ⟨c.Source, 0⟩) c.Source
        ⟨c.Source, amtOf (lookupMap (updateMap m c.Source ⟨c.Source, 0⟩) c.Source) + c.Amount⟩ :=
      he
    rcases mem_updateMap he1 with h1 | h1
    · rcases mem_updateMap h1 with h2 | h2
      · exact hm e h2
      · rw [h2]
    · rw [h1]
  | some g =>
    rw [hl] at he
    have he1 : e ∈ updateMap m c.Source
        ⟨c.Source, amtOf (lookupMap m c.Source) + c.Amount⟩ := he
    rcases mem_updateMap he1 with h1 | h1
    · exact hm e h1
    · rw [h1]

lemma foldl_entry_name (l : List Cost) :
    ∀ m, (∀ e ∈ m, (e : String × GroupedCost).2.Name = e.1) →
      ∀ e ∈ l.foldl tallyStep m, (e : String × GroupedCost).2.Name = e.1 := by
  induction l with
  | nil => intro m hm; exact hm
  | cons c l ih =>
    intro m hm
    rw [List.foldl_cons]
    exact ih _ (tallyStep_entry hm)

lemma tallyCosts_entry_name (l : List Cost) :
    ∀ e ∈ tallyCosts l, (e : String × GroupedCost).2.Name = e.1 :=
  foldl_entry_name l [] (by intro e he; cases he)

lemma tallyStep_nodupKeys {m : List (String × GroupedCost)}
    (h : (m.map Prod.fst).Nodup) (c : Cost) :
    ((tallyStep m c).map Prod.fst).Nodup := by
  unfold tallyStep
  cases hl : lookupMap m c.Source with
  | none => exact nodupKeys_updateMap (nodupKeys_updateMap h _ _) _ _
  | some g => exact nodupKeys_updateMap h _ _

lemma foldl_nodupKeys (l : List Cost) :
    ∀ m, ((m.map Prod.fst).Nodup) → (((l.foldl tallyStep m).map Prod.fst).Nodup) := by
  induction l with
  | nil => intro m hm; exact hm
  | cons c l ih =>
    intro m hm
    rw [List.foldl_cons]
    exact ih _ (tallyStep_nodupKeys hm c)

lemma tallyCosts_nodupKeys (l : List Cost) : (((tallyCosts l).map Prod.fst).Nodup) :=
  foldl_nodupKeys l [] (by simp)

lemma mem_values_tallyCosts {l : List Cost} {src : String} :
    (⟨src, sumFilter l src⟩ : GroupedCost) ∈ (tallyCosts l).map Prod.snd ↔
      src ∈ l.map Cost.Source := by
  constructor
  · intro h
    obtain ⟨e, he, hsnd⟩ := List.mem_map.mp h
    obtain ⟨k, g⟩ := e
    have hn : g.Name = k := tallyCosts_entry_name l (k, g) he
    have hg : g = ⟨src, sumFilter l src⟩ := hsnd
    have hk : k = src := by rw [← hn, hg]
    have hlk : lookupMap (tallyCosts l) k = some g :=
      lookupMap_of_mem (tallyCosts_nodupKeys l) he
    rw [tallyCosts_lookup] at hlk
    by_cases hm : k ∈ l.map Cost.Source
    · rw [← hk]
      exact hm
    · rw [if_neg hm] at hlk
      cases hlk
  · intro h
    have hlk : lookupMap (tallyCosts l) src = some ⟨src, sumFilter l src⟩ := by
      rw [tallyCosts_lookup, if_pos h]
    exact List.mem_map.mpr ⟨(src, ⟨src, sumFilter l src⟩), mem_of_lookupMap hlk, rfl⟩

lemma readCostsCSV_badline (fd : Int) (line : String)
    (h4 : (line.splitOn ",").length ≠ 4) (post : List String) :
    readCostsCSV fd (line :: post) =
      Except.error ("Line missing expected number of fields: " ++ line) := by
  simp only [readCostsCSV]
  rcases hsp : line.splitOn "," with _ | ⟨d, _ | ⟨s, _ | ⟨a, _ | ⟨n, _ | ⟨x, xs⟩⟩⟩⟩⟩ <;>
    simp only []
  case cons.cons.cons.cons.nil =>
    rw [hsp] at h4
    exact absurd rfl h4

/-- Claim C5: the sum of the `Amount` fields over all entries of the map
returned by `tallyCosts` equals the grand total returned by `getTotal` on
the same costs.  Amounts are modelled as exact rationals, so the equality
is exact, in particular within any floating-point tolerance. -/
theorem c5_tally_sum_eq_getTotal (costs : List Cost) :
    sumAmounts (tallyCosts costs) = getTotal costs := by
  rw [tallyCosts, sumAmounts_foldl, getTotal_eq, sumAmounts_nil, zero_add]

/-- Claim C6: aggregation is order-independent.  For any two cost lists
that are permutations of each other, `tallyCosts` returns the same
source-to-amount mapping (a Go map is extensional, so maps are compared
through `lookupMap`) and `getTotal` returns the same grand total. -/
theorem c6_perm_invariant {costs costs' : List Cost} (h : costs.Perm costs') :
    (∀ s, lookupMap (tallyCosts costs) s = lookupMap (tallyCosts costs') s) ∧
      getTotal costs = getTotal costs' := by
  constructor
  · intro s
    rw [tallyCosts_lookup, tallyCosts_lookup]
    have hmem : (s ∈ costs.map Cost.Source) ↔ (s ∈ costs'.map Cost.Source) :=
      (h.map Cost.Source).mem_iff
    have hsum : sumFilter costs s = sumFilter costs' s := by
      unfold sumFilter
      exact ((h.filter (fun c => c.Source == s)).map Cost.Amount).sum_eq
    by_cases hm : s ∈ costs.map Cost.Source
    · rw [if_pos hm, if_pos (hmem.mp hm), hsum]
    · rw [if_neg hm, if_neg (fun hx => hm (hmem.mpr hx))]
  · rw [getTotal_eq, getTotal_eq]
    exact (h.map Cost.Amount).sum_eq

/-- Witness for C6 at a concrete two-element permutation. -/
theorem c6_perm_invariant_witness :
    (∀ s, lookupMap (tallyCosts [⟨⟨2024, 1, 5⟩, "A", 10, "x"⟩, ⟨⟨2024, 1, 6⟩, "B", 5, "y"⟩]) s =
        lookupMap (tallyCosts [⟨⟨2024, 1, 6⟩, "B", 5, "y"⟩, ⟨⟨2024, 1, 5⟩, "A", 10, "x"⟩]) s) ∧
      getTotal [⟨⟨2024, 1, 5⟩, "A", 10, "x"⟩, ⟨⟨2024, 1, 6⟩, "B", 5, "y"⟩] =
        getTotal [⟨⟨2024, 1, 6⟩, "B", 5, "y"⟩, ⟨⟨2024, 1, 5⟩, "A", 10, "x"⟩] :=
  c6_perm_invariant (List.Perm.swap _ _ _)

/-- Claim C9: the key set of the map returned by `tallyCosts` is exactly
the set of distinct `Source` strings of the input (on the empty list the
map is empty), and the entry at key `s` is a `GroupedCost` whose `Name`
is `s`. -/
theorem c9_tally_keys (costs : List Cost) (s : String) :
    tallyCosts [] = ([] : List (String × GroupedCost)) ∧
      Option.map GroupedCost.Name (lookupMap (tallyCosts costs) s) =
        (if s ∈ costs.map Cost.Source then some s else none) := by
  refine ⟨rfl, ?_⟩
  rw [tallyCosts_lookup]
  by_cases hm : s ∈ costs.map Cost.Source
  · rw [if_pos hm, if_pos hm]
    rfl
  · rw [if_neg hm, if_neg hm]
    rfl

/-- Claim C8: an empty `--csv` value, an empty or invalid `--location`, or
a non-positive `--days-back` makes `main`'s argument validation fail, so
the program prints a usage or diagnostic message and exits with status 1
before producing any report. -/
theorem c8_args_validation (csv loc : String) (daysBack : Int) (validTZ : String → Bool)
    (h : csv = "" ∨ loc = "" ∨ daysBack ≤ 0 ∨ validTZ loc = false) :
    mainArgsOk csv loc daysBack validTZ = false := by
  unfold mainArgsOk
  rcases h with h | h | h | h
  · subst h; simp
  · subst h; simp
  · by_cases h1 : csv.length = 0
    · simp [h1]
    · by_cases h2 : loc.length = 0
      · simp [h1, h2]
      · simp [h1, h2, h]
  · by_cases h1 : csv.length = 0
    · simp [h1]
    · by_cases h2 : loc.length = 0
      · simp [h1, h2]
      · by_cases h3 : daysBack ≤ 0
        · simp [h1, h2, h3]
        · simp [h1, h2, h3, h]

/-- Witness for C8: the empty csv path is rejected. -/
theorem c8_args_validation_witness :
    mainArgsOk "" "America/Vancouver" 30 (fun _ => true) = false :=
  c8_args_validation "" "America/Vancouver" 30 (fun _ => true) (Or.inl rfl)

/-- Claim C4: the recency boundary.  With cutoff `today − N` (N > 0), a
4-field line whose well-formed date is exactly `today − N` days is parsed
and included, and one whose date is exactly `today − (N+1)` days is
silently dropped (the read still succeeds, with no record). -/
theorem c4_filter_boundary (today N : Int) (hN : 0 < N) (line d s a n : String)
    (t : Time) (q : ℚ) (hsp : line.splitOn "," = [d, s, a, n])
    (hd : parseDate d = some t) (ha : parseFloat a = some q) :
    (t.toDays = today - N →
        readCostsCSV (today - N) [line] = Except.ok [⟨t, s, q, n⟩]) ∧
      (t.toDays = today - (N + 1) →
        readCostsCSV (today - N) [line] = Except.ok []) := by
  constructor
  · intro ht
    have hnot : ¬ t.toDays < today - N := by rw [ht]; exact lt_irrefl _
    simp only [readCostsCSV, hsp, hd, ha, if_neg hnot]
    rfl
  · intro ht
    have hlt : t.toDays < today - N := by
      rw [ht]
      exact sub_lt_sub_left (lt_add_one N) today
    simp only [readCostsCSV, hsp, hd, if_pos hlt]

/-- Witness for C4: cutoff day 1 (today = 31, N = 30), record on day 1 is
kept. -/
theorem c4_filter_boundary_witness :
    readCostsCSV (31 - 30) ["1970-01-02,Store,10.5,x"] =
      Except.ok [⟨⟨1970, 1, 2⟩, "Store", 21 / 2, "x"⟩] :=
  (c4_filter_boundary 31 30 (by decide) "1970-01-02,Store,10.5,x" "1970-01-02" "Store"
      "10.5" "x" ⟨1970, 1, 2⟩ (21 / 2) (by with_unfolding_all rfl) (by decide)
      (by with_unfolding_all rfl)).1 (by decide)

/-- Claim C2 counterexample: a 4-field line with a well-formed date and an
amount that does not parse, dated before the recency cutoff, is silently
skipped — `readCostsCSV` succeeds instead of failing, because the date
filter runs before the amount is parsed. -/
theorem c2_old_bad_amount_counterexample :
    ("1970-01-02,Store,ten,x".splitOn ",").length = 4 ∧
      (parseDate "1970-01-02").isSome = true ∧
      parseFloat "ten" = none ∧
      readCostsCSV 1000 ["1970-01-02,Store,ten,x"] = Except.ok [] := by
  refine ⟨by with_unfolding_all rfl, by decide, by decide, ?_⟩
  with_unfolding_all rfl

/-- Claim C2 amended: for a line at or after the recency cutoff, with 4
fields and a well-formed date but an amount that does not parse, the whole
run aborts with an error identifying the offending value, provided the
preceding lines were read cleanly; a line strictly before the cutoff is
skipped before its amount is examined. -/
theorem c2_bad_amount_aborts (fd : Int) (pre post : List String) (cs : List Cost)
    (line d s a n : String) (t : Time)
    (hok : readCostsCSV fd pre = Except.ok cs)
    (hsp : line.splitOn "," = [d, s, a, n])
    (hd : parseDate d = some t)
    (hcut : ¬ t.toDays < fd)
    (ha : parseFloat a = none) :
    readCostsCSV fd (pre ++ line :: post) =
      Except.error ("Unable to parse amount: " ++ a) := by
  rw [readCostsCSV_append, hok]
  simp only [readCostsCSV, hsp, hd, if_neg hcut, ha]
  rfl

/-- Witness for the amended C2. -/
theorem c2_bad_amount_aborts_witness :
    readCostsCSV 0 (["1970-01-05,A,1.5,x"] ++ "1970-01-06,B,ten,y" :: []) =
      Except.error ("Unable to parse amount: " ++ "ten") :=
  c2_bad_amount_aborts 0 ["1970-01-05,A,1.5,x"] [] [⟨⟨1970, 1, 5⟩, "A", 3 / 2, "x"⟩]
    "1970-01-06,B,ten,y" "1970-01-06" "B" "ten" "y" ⟨1970, 1, 6⟩
    (by with_unfolding_all rfl) (by with_unfolding_all rfl) (by decide) (by decide)
    (by decide)

/-- Claim C7: a line that does not split into exactly 4 comma-delimited
fields always aborts the run — `readCostsCSV` never returns records for
such an input — and when the preceding lines read cleanly the returned
error identifies the offending line. -/
theorem c7_field_count (fd : Int) :
    (∀ (lines : List String) (line : String), line ∈ lines →
        (line.splitOn ",").length ≠ 4 →
        ∀ cs : List Cost, readCostsCSV fd lines ≠ Except.ok cs) ∧
      (∀ (pre post : List String) (cs : List Cost) (line : String),
        readCostsCSV fd pre = Except.ok cs →
        (line.splitOn ",").length ≠ 4 →
        readCostsCSV fd (pre ++ line :: post) =
          Except.error ("Line missing expected number of fields: " ++ line)) := by
  constructor
  · intro lines line hmem h4 cs
    obtain ⟨u, v, rfl⟩ := List.append_of_mem hmem
    rw [readCostsCSV_append]
    cases hpre : readCostsCSV fd u with
    | error e =>
      intro hcontra
      exact Except.noConfusion hcontra
    | ok cs0 =>
      rw [readCostsCSV_badline fd line h4 v]
      intro hcontra
      exact Except.noConfusion hcontra
  · intro pre post cs line hok h4
    rw [readCostsCSV_append, hok, readCostsCSV_badline fd line h4 post]
    rfl

/-- Witness for C7: a 2-field line after a clean line aborts with the
field-count error. -/
theorem c7_field_count_witness :
    readCostsCSV 0 (["1970-01-05,A,1.5,x"] ++ "bad,line" :: []) =
      Except.error ("Line missing expected number of fields: " ++ "bad,line") :=
  (c7_field_count 0).2 ["1970-01-05,A,1.5,x"] [] [⟨⟨1970, 1, 5⟩, "A", 3 / 2, "x"⟩]
    "bad,line" (by with_unfolding_all rfl) (by with_unfolding_all decide)

lemma timeSorted_iff_map (l : List Cost) :
    timeSorted l ↔ List.Chain' (fun x y : Int => ¬ y < x) (l.map (fun c => c.Time.toDays)) := by
  unfold timeSorted Time.Before
  exact (@List.chain'_map Int Cost (fun x y : Int => ¬ y < x)
    (fun c : Cost => c.Time.toDays) l).symm

lemma noteVariant_symm {a b : Cost} (h : NoteVariant a b) : NoteVariant b a :=
  ⟨h.1.symm, h.2.1.symm, h.2.2.symm⟩

lemma forall₂_noteVariant_symm {l1 l2 : List Cost}
    (h : List.Forall₂ NoteVariant l1 l2) : List.Forall₂ NoteVariant l2 l1 := by
  induction h with
  | nil => exact List.Forall₂.nil
  | cons hab _ ih => exact List.Forall₂.cons (noteVariant_symm hab) ih

lemma isReportOutput_of_noteVariant {costs1 costs2 : List Cost}
    (h : List.Forall₂ NoteVariant costs1 costs2) {out : List String}
    (hrep : IsReportOutput costs1 (getTotal costs1) (tallyCosts costs1) out) :
    IsReportOutput costs2 (getTotal costs2) (tallyCosts costs2) out := by
  obtain ⟨s1, g, hperm, hsort, hgperm, hgsort, hout⟩ := hrep
  have hstrip : costs1.map stripNote = costs2.map stripNote := map_stripNote_eq h
  have htot : getTotal costs1 = getTotal costs2 := by
    rw [← getTotal_map_stripNote costs1, ← getTotal_map_stripNote costs2, hstrip]
  have htally : tallyCosts costs1 = tallyCosts costs2 := by
    rw [← tallyCosts_map_stripNote costs1, ← tallyCosts_map_stripNote costs2, hstrip]
  have hmp : (s1.map stripNote).Perm (costs2.map stripNote) := by
    rw [← hstrip]
    exact hperm.map stripNote
  obtain ⟨s2, hs2perm, hs2map⟩ := exists_perm_of_map_perm stripNote (s1.map stripNote) costs2 hmp
  refine ⟨s2, g, hs2perm, ?_, ?_, hgsort, ?_⟩
  · have hdays : ∀ l : List Cost,
        l.map (fun c => c.Time.toDays) = (l.map stripNote).map (fun c => c.Time.toDays) := by
      intro l
      rw [List.map_map]
      rfl
    have ht : s2.map (fun c => c.Time.toDays) = s1.map (fun c => c.Time.toDays) := by
      rw [hdays s2, hdays s1, hs2map]
    rw [timeSorted_iff_map, ht, ← timeSorted_iff_map]
    exact hsort
  · rw [← htally]
    exact hgperm
  · subst hout
    have hstr : s1.map Cost.string = s2.map Cost.string := by
      have hmaps : ∀ l : List Cost, l.map Cost.string = (l.map stripNote).map Cost.string := by
        intro l
        rw [List.map_map]
        rfl
      rw [hmaps s1, hmaps s2, hs2map]
    unfold reportLines
    rw [htot, hstr]

/-- Claim C10: the rendered report is independent of the `Note` field: for
two cost lists that differ only in the notes of their records, with the
correspondingly computed totals and source maps, `reportCosts` can produce
exactly the same outputs. -/
theorem c10_note_independent {costs1 costs2 : List Cost}
    (h : List.Forall₂ NoteVariant costs1 costs2) (out : List String) :
    IsReportOutput costs1 (getTotal costs1) (tallyCosts costs1) out ↔
      IsReportOutput costs2 (getTotal costs2) (tallyCosts costs2) out := by
  constructor
  · exact isReportOutput_of_noteVariant h
  · exact isReportOutput_of_noteVariant (forall₂_noteVariant_symm h)

/-- Witness for C10 on two one-record lists differing only in the note. -/
theorem c10_note_independent_witness :
    IsReportOutput [⟨⟨2024, 1, 5⟩, "A", 1, "note one"⟩]
        (getTotal [⟨⟨2024, 1, 5⟩, "A", 1, "note one"⟩])
        (tallyCosts [⟨⟨2024, 1, 5⟩, "A", 1, "note one"⟩]) [] ↔
      IsReportOutput [⟨⟨2024, 1, 5⟩, "A", 1, "note two"⟩]
        (getTotal [⟨⟨2024, 1, 5⟩, "A", 1, "note two"⟩])
        (tallyCosts [⟨⟨2024, 1, 5⟩, "A", 1, "note two"⟩]) [] :=
  @c10_note_independent [⟨⟨2024, 1, 5⟩, "A", 1, "note one"⟩]
    [⟨⟨2024, 1, 5⟩, "A", 1, "note two"⟩]
    (List.Forall₂.cons ⟨rfl, rfl, rfl⟩ List.Forall₂.nil) []

/-- Claim C3 counterexample: `sort.Sort` is not stable, so for the input
`[A record, B record]` with equal dates there is a possible report output
in which B's line precedes A's line, violating "ties keep original input
order". -/
theorem c3_stable_tie_counterexample :
    ¬ (∀ out, IsReportOutput
        [⟨⟨2024, 1, 5⟩, "A", 1, "na"⟩, ⟨⟨2024, 1, 5⟩, "B", 2, "nb"⟩] 3
        (tallyCosts [⟨⟨2024, 1, 5⟩, "A", 1, "na"⟩, ⟨⟨2024, 1, 5⟩, "B", 2, "nb"⟩]) out →
        out.indexOf (Cost.string ⟨⟨2024, 1, 5⟩, "A", 1, "na"⟩) <
          out.indexOf (Cost.string ⟨⟨2024, 1, 5⟩, "B", 2, "nb"⟩)) := by
  intro h
  have hg : (tallyCosts [⟨⟨2024, 1, 5⟩, "A", 1, "na"⟩, ⟨⟨2024, 1, 5⟩, "B", 2, "nb"⟩]).map
      Prod.snd = [⟨"A", 1⟩, ⟨"B", 2⟩] := by
    with_unfolding_all rfl
  have hrep : IsReportOutput
      [⟨⟨2024, 1, 5⟩, "A", 1, "na"⟩, ⟨⟨2024, 1, 5⟩, "B", 2, "nb"⟩] 3
      (tallyCosts [⟨⟨2024, 1, 5⟩, "A", 1, "na"⟩, ⟨⟨2024, 1, 5⟩, "B", 2, "nb"⟩])
      (reportLines [⟨⟨2024, 1, 5⟩, "B", 2, "nb"⟩, ⟨⟨2024, 1, 5⟩, "A", 1, "na"⟩] 3
        [⟨"B", 2⟩, ⟨"A", 1⟩]) := by
    refine ⟨[⟨⟨2024, 1, 5⟩, "B", 2, "nb"⟩, ⟨⟨2024, 1, 5⟩, "A", 1, "na"⟩],
      [⟨"B", 2⟩, ⟨"A", 1⟩], List.Perm.swap _ _ _, ?_, ?_, ?_, rfl⟩
    · exact List.chain'_cons.mpr ⟨by decide, List.chain'_singleton _⟩
    · rw [hg]
      exact List.Perm.swap _ _ _
    · exact List.chain'_cons.mpr ⟨by with_unfolding_all decide, List.chain'_singleton _⟩
  have hlt := h _ hrep
  revert hlt
  with_unfolding_all decide

/-- Claim C3 amended: every possible output of `reportCosts` starts with
the header, then one line per cost — some permutation of the input sorted
ascending by date, ties in unspecified order since `sort.Sort` is not
guaranteed stable — then a blank line and the `Total:` line with the
amount at 2 decimal places. -/
theorem c3_report_costs_section (costs : List Cost) (total : ℚ)
    (m : List (String × GroupedCost)) (out : List String)
    (h : IsReportOutput costs total m out) :
    ∃ (s : List Cost) (tail : List String), s.Perm costs ∧ timeSorted s ∧
      out = ("Costs:" :: s.map Cost.string) ++ ["", "Total: " ++ fmtAmount total] ++ tail := by
  obtain ⟨s, g, hperm, hsort, hgperm, hgsort, hout⟩ := h
  refine ⟨s, ["", "----", "", "Grouped costs:"] ++ g.map GroupedCost.string,
    hperm, hsort, ?_⟩
  subst hout
  simp [reportLines]

/-- Witness for the amended C3 on a one-record input. -/
theorem c3_report_costs_section_witness :
    ∃ (s : List Cost) (tail : List String),
      s.Perm [⟨⟨2024, 1, 5⟩, "A", 1, "na"⟩] ∧ timeSorted s ∧
        reportLines [⟨⟨2024, 1, 5⟩, "A", 1, "na"⟩] 1 [⟨"A", 1⟩] =
          ("Costs:" :: s.map Cost.string) ++ ["", "Total: " ++ fmtAmount 1] ++ tail :=
  c3_report_costs_section [⟨⟨2024, 1, 5⟩, "A", 1, "na"⟩] 1 [("A", ⟨"A", 1⟩)] _
    ⟨[⟨⟨2024, 1, 5⟩, "A", 1, "na"⟩], [⟨"A", 1⟩], List.Perm.refl _, List.chain'_singleton _,
      List.Perm.refl _, List.chain'_singleton _, rfl⟩

/-- Claim C1 counterexample: the program has no month grouping.  For the
one-record input `2024-01-05,Store A,10.00,lunch` the claim requires the
report to contain the MonthTotal line `2024-01: 10.00`, but no possible
output of `reportCosts` contains it. -/
theorem c1_month_listing_counterexample :
    ¬ (∀ out, IsReportOutput [⟨⟨2024, 1, 5⟩, "Store A", 10, "lunch"⟩]
        (getTotal [⟨⟨2024, 1, 5⟩, "Store A", 10, "lunch"⟩])
        (tallyCosts [⟨⟨2024, 1, 5⟩, "Store A", 10, "lunch"⟩]) out →
        "2024-01: 10.00" ∈ out) := by
  intro h
  have hrep : IsReportOutput [⟨⟨2024, 1, 5⟩, "Store A", 10, "lunch"⟩]
      (getTotal [⟨⟨2024, 1, 5⟩, "Store A", 10, "lunch"⟩])
      (tallyCosts [⟨⟨2024, 1, 5⟩, "Store A", 10, "lunch"⟩])
      (reportLines [⟨⟨2024, 1, 5⟩, "Store A", 10, "lunch"⟩]
        (getTotal [⟨⟨2024, 1, 5⟩, "Store A", 10, "lunch"⟩]) [⟨"Store A", 10⟩]) := by
    refine ⟨[⟨⟨2024, 1, 5⟩, "Store A", 10, "lunch"⟩], [⟨"Store A", 10⟩], List.Perm.refl _,
      List.chain'_singleton _, ?_, List.chain'_singleton _, rfl⟩
    have hg : (tallyCosts [⟨⟨2024, 1, 5⟩, "Store A", 10, "lunch"⟩]).map Prod.snd =
        [⟨"Store A", 10⟩] := by
      with_unfolding_all rfl
    rw [hg]
  have hmem := h _ hrep
  revert hmem
  with_unfolding_all decide

/-- Claim C1 amended: the grouped listing in the report is by source, not
by month: every possible output ends with a `Grouped costs:` section that
is an amount-sorted (descending) sequence of SourceTotal lines containing
the entry `src: accumulated amount` exactly for the distinct sources of
the input; the code builds no grouped-by-month listing. -/
theorem c1_report_grouped_by_source (costs : List Cost) (total : ℚ) (out : List String)
    (h : IsReportOutput costs total (tallyCosts costs) out) :
    ∃ g : List GroupedCost, amountSorted g ∧
      (∀ src : String, ((⟨src, sumFilter costs src⟩ : GroupedCost) ∈ g ↔
          src ∈ costs.map Cost.Source)) ∧
      ∃ pre : List String, out = pre ++ g.map GroupedCost.string := by
  obtain ⟨s, g, hperm, hsort, hgperm, hgsort, hout⟩ := h
  refine ⟨g, hgsort, ?_, ?_⟩
  · intro src
    rw [hgperm.mem_iff]
    exact mem_values_tallyCosts
  · refine ⟨("Costs:" :: s.map Cost.string) ++
      ["", "Total: " ++ fmtAmount total, "", "----", "", "Grouped costs:"], ?_⟩
    subst hout
    simp [reportLines]

/-- Witness for the amended C1 on a one-record input. -/
theorem c1_report_grouped_by_source_witness :
    ∃ g : List GroupedCost, amountSorted g ∧
      (∀ src : String,
        ((⟨src, sumFilter [⟨⟨2024, 1, 5⟩, "Store A", 10, "lunch"⟩] src⟩ : GroupedCost) ∈ g ↔
          src ∈ [⟨⟨2024, 1, 5⟩, "Store A", 10, "lunch"⟩].map Cost.Source)) ∧
      ∃ pre : List String,
        reportLines [⟨⟨2024, 1, 5⟩, "Store A", 10, "lunch"⟩] 10 [⟨"Store A", 10⟩] =
          pre ++ g.map GroupedCost.string := by
  refine c1_report_grouped_by_source [⟨⟨2024, 1, 5⟩, "Store A", 10, "lunch"⟩] 10 _
    ⟨[⟨⟨2024, 1, 5⟩, "Store A", 10, "lunch"⟩], [⟨"Store A", 10⟩], List.Perm.refl _,
      List.chain'_singleton _, ?_, List.chain'_singleton _, rfl⟩
  have hg : (tallyCosts [⟨⟨2024, 1, 5⟩, "Store A", 10, "lunch"⟩]).map Prod.snd =
      [⟨"Store A", 10⟩] := by
    with_unfolding_all rfl
  rw [hg]
